import Mathlib

/-!
Shallow embedding of the SwiftChat socket.io server (`server/index.js`):
matchmaking queues for random text/video chat, private rooms, and the
message / WebRTC signaling relay.

Modelling conventions:
* A socket is identified by its id (`String`).
* JS `Map`s (`socketToRoom`, `socketToUsername`, `privateRooms`) are
  association lists with overwrite-on-set semantics; they are only ever
  read through `get`/`has`/`delete`, never iterated, so entry order is
  irrelevant and `mset` may reorder.
* socket.io room membership (`socket.join` / `socket.leave` /
  `socket.to(room).emit`) is the `joined` list of (socket id, room id)
  pairs, in join order; `socket.to(r).emit(ev)` delivers `ev` to every
  member of `r` other than the sender, which is `membersExcept`.
  On transport disconnect socket.io removes the socket from all rooms.
* `Math.random().toString(36).substring(2, 8).toUpperCase()` (the body of
  `generateRoomId`) is modelled as an oracle stream `idStream` of
  pregenerated codes carried in the state; each call consumes one code.
  The function reads no room state whatsoever, exactly like the source.
* JS truthiness of a room id (`if (roomId)`) makes both `undefined` and
  the empty string falsy; `a || b` falls through to `b` when `a` is
  `undefined` or `""`.  This is modelled by `jsOr` and explicit
  `r = ""` tests.
-/

structure WaitingEntry where
  sid : String
  username : String
deriving DecidableEq, Repr

structure PrivRoom where
  participants : List String
  messages : List (String × String)
deriving DecidableEq, Repr

structure ServerState where
  textChatQueue : List WaitingEntry
  videoChatQueue : List WaitingEntry
  privateRooms : List (String × PrivRoom)
  socketToRoom : List (String × String)
  socketToUsername : List (String × String)
  joined : List (String × String)
  idStream : List String
deriving DecidableEq, Repr

/-- `Map.get`: value of the first (only) entry for the key, if any. -/
def mget {α : Type} (m : List (String × α)) (k : String) : Option α :=
  match m with
  | [] => none
  | x :: xs => if x.1 = k then some x.2 else mget xs k

/-- `Map.delete`: drop every entry for the key. -/
def mdel {α : Type} (m : List (String × α)) (k : String) :
    List (String × α) :=
  match m with
  | [] => []
  | x :: xs => if x.1 = k then mdel xs k else x :: mdel xs k

/-- `Map.set`: overwrite-or-insert.  The map is never iterated, so
placing the fresh entry in front is observationally equal to in-place
update. -/
def mset {α : Type} (m : List (String × α)) (k : String) (v : α) :
    List (String × α) :=
  (k, v) :: mdel m k

/-- `queue.splice(queue.findIndex(item => item.socket.id === c), 1)`:
remove the first waiting entry of socket `c`, if any. -/
def removeFirstBy (l : List WaitingEntry) (c : String) : List WaitingEntry :=
  match l with
  | [] => []
  | x :: xs => if x.sid = c then xs else x :: removeFirstBy xs c

/-- `socket.join(r)`: socket.io membership is a set, join is idempotent,
new members are appended. -/
def joinRoom (s : ServerState) (c r : String) : ServerState :=
  if (c, r) ∈ s.joined then s else { s with joined := s.joined ++ [(c, r)] }

/-- `socket.leave(r)`. -/
def leaveRoom (s : ServerState) (c r : String) : ServerState :=
  { s with joined := s.joined.filter (fun p => decide (¬(p.1 = c ∧ p.2 = r))) }

/-- Sockets currently in socket.io room `r`, in join order. -/
def members (s : ServerState) (r : String) : List String :=
  (s.joined.filter (fun p => decide (p.2 = r))).map (·.1)

/-- Delivery audience of `socket.to(r).emit(...)` sent by `c`: every
member of `r` except the sender. -/
def membersExcept (s : ServerState) (r c : String) : List String :=
  (s.joined.filter (fun p => decide (p.2 = r ∧ p.1 ≠ c))).map (·.1)

/-- JS `a || b` on room ids: falls through when `a` is `undefined` or
the empty string. -/
def jsOr (a b : Option String) : Option String :=
  match a with
  | none => b
  | some r => if r = "" then b else some r

/-- Inbound events of the protocol (§6 of the spec), tagged with the
emitting socket id. -/
inductive Event where
  | joinTextChat (sid username : String)
  | joinVideoChat (sid username : String)
  | joinPrivateRoom (sid roomId username : String)
  | sendMessage (sid message : String)
  | sendRoomMessage (sid roomId message sender : String)
  | webrtcOffer (sid : String) (roomId : Option String) (offer : String)
  | webrtcAnswer (sid : String) (roomId : Option String) (answer : String)
  | webrtcIce (sid : String) (roomId : Option String) (candidate : String)
  | findNewPartner (sid : String)
  | disconnect (sid : String)
deriving DecidableEq, Repr

/-- Outbound events, without their target socket. -/
inductive OutEvent where
  | chatMatched (partnerUsername roomId : String)
  | videoChatMatched (partnerUsername roomId : String) (shouldCreateOffer : Bool)
  | roomJoined (participants : List String) (shouldCreateOffer : Bool)
  | userJoinedRoom (username : String) (participants : List String)
      (shouldCreateOffer : Bool)
  | messageReceived (message : String) (sender : Option String)
  | roomMessage (message sender : String)
  | webrtcOfferOut (offer : String)
  | webrtcAnswerOut (answer : String)
  | webrtcIceOut (candidate : String)
  | partnerDisconnected
  | userLeftRoom (username : Option String) (participants : List String)
deriving DecidableEq, Repr

/-- An emitted event together with the socket it is delivered to. -/
abbrev Emit := String × OutEvent

/-- `socket.on('joinTextChat')`: record the username; if someone is
waiting, pop the head of the queue, make a `text_`-prefixed room, bind
and join both sockets and notify both; otherwise append to the queue. -/
def handleJoinText (s : ServerState) (c u : String) : ServerState × List Emit :=
  match s.textChatQueue with
  | partner :: rest =>
    let roomId := "text_" ++ s.idStream.headD ""
    let s1 : ServerState :=
      { s with socketToUsername := mset s.socketToUsername c u,
               idStream := s.idStream.tail,
               textChatQueue := rest }
    let s2 := joinRoom (joinRoom s1 c roomId) partner.sid roomId
    let s3 : ServerState :=
      { s2 with socketToRoom := mset (mset s2.socketToRoom c roomId) partner.sid roomId }
    (s3, [(c, OutEvent.chatMatched partner.username roomId),
          (partner.sid, OutEvent.chatMatched u roomId)])
  | [] =>
    ({ s with socketToUsername := mset s.socketToUsername c u,
              textChatQueue := s.textChatQueue ++ [⟨c, u⟩] }, [])

/-- `socket.on('joinVideoChat')`: as for text, but the room id gets a
`video_` prefix and both notifications carry a `shouldCreateOffer` flag:
`true` for the joining socket, `false` for the dequeued partner. -/
def handleJoinVideo (s : ServerState) (c u : String) : ServerState × List Emit :=
  match s.videoChatQueue with
  | partner :: rest =>
    let roomId := "video_" ++ s.idStream.headD ""
    let s1 : ServerState :=
      { s with socketToUsername := mset s.socketToUsername c u,
               idStream := s.idStream.tail,
               videoChatQueue := rest }
    let s2 := joinRoom (joinRoom s1 c roomId) partner.sid roomId
    let s3 : ServerState :=
      { s2 with socketToRoom := mset (mset s2.socketToRoom c roomId) partner.sid roomId }
    (s3, [(c, OutEvent.videoChatMatched partner.username roomId true),
          (partner.sid, OutEvent.videoChatMatched u roomId false)])
  | [] =>
    ({ s with socketToUsername := mset s.socketToUsername c u,
              videoChatQueue := s.videoChatQueue ++ [⟨c, u⟩] }, [])

/-- `socket.on('joinPrivateRoom')`: record the username, bind the socket
to the supplied room id, join the socket.io room, create the room record
if absent, append the username to the participants unless already
present, then emit `roomJoined` to the caller and `userJoinedRoom` to
the other members.  The offer flags are exactly the source's
`participants.length === 2 && participants[0] ===/!== username`. -/
def handleJoinPrivate (s : ServerState) (c r u : String) :
    ServerState × List Emit :=
  let s1 : ServerState :=
    { s with socketToUsername := mset s.socketToUsername c u,
             socketToRoom := mset s.socketToRoom c r }
  let s2 := joinRoom s1 c r
  let room := (mget s2.privateRooms r).getD ⟨[], []⟩
  let ps := if u ∈ room.participants then room.participants
            else room.participants ++ [u]
  let s3 : ServerState :=
    { s2 with privateRooms := mset s2.privateRooms r { room with participants := ps } }
  (s3, (c, OutEvent.roomJoined ps (decide (ps.length = 2 ∧ ps.head? = some u))) ::
       (membersExcept s2 r c).map
         (fun d => (d, OutEvent.userJoinedRoom u ps
            (decide (ps.length = 2 ∧ ps.head? ≠ some u)))))

/-- `socket.on('sendMessage')`: look up the sender's bound room; if it
is truthy, relay `messageReceived {message, sender}` to the other
members; otherwise do nothing.  Never changes state. -/
def handleSendMessage (s : ServerState) (c m : String) :
    ServerState × List Emit :=
  match mget s.socketToRoom c with
  | some r =>
    if r = "" then (s, [])
    else (s, (membersExcept s r c).map
           (fun d => (d, OutEvent.messageReceived m (mget s.socketToUsername c))))
  | none => (s, [])

/-- `socket.on('sendRoomMessage')`: relay `{message, sender}` verbatim
to the payload-supplied room, with no binding or identity check. -/
def handleSendRoomMessage (s : ServerState) (c r m sender : String) :
    ServerState × List Emit :=
  (s, (membersExcept s r c).map (fun d => (d, OutEvent.roomMessage m sender)))

/-- The shared shape of the three WebRTC signaling handlers:
`const roomId = socketToRoom.get(socket.id) || data.roomId` followed by
a truthiness test and a relay of the payload. -/
def handleSignal (s : ServerState) (c : String) (pr : Option String)
    (out : OutEvent) : ServerState × List Emit :=
  match jsOr (mget s.socketToRoom c) pr with
  | some r =>
    if r = "" then (s, [])
    else (s, (membersExcept s r c).map (fun d => (d, out)))
  | none => (s, [])

/-- `socket.on('findNewPartner')`: if bound to a truthy room, notify the
other members with `partnerDisconnected`, leave the socket.io room and
drop the binding. -/
def handleFindNewPartner (s : ServerState) (c : String) :
    ServerState × List Emit :=
  match mget s.socketToRoom c with
  | some r =>
    if r = "" then (s, [])
    else
      let emits := (membersExcept s r c).map
        (fun d => (d, OutEvent.partnerDisconnected))
      let s1 := leaveRoom s c r
      ({ s1 with socketToRoom := mdel s1.socketToRoom c }, emits)
  | none => (s, [])

/-- The private-room part of the disconnect handler: given the state
after the queue splices, compute the new `privateRooms` table and the
notifications (`partnerDisconnected`, and `userLeftRoom` when the bound
room is a private room).  The participant removal filters by the
disconnecting socket's username; with no registered username, JS
`p !== undefined` keeps every participant. -/
def disconnectRoomPart (s1 : ServerState) (c : String) :
    List (String × PrivRoom) × List Emit :=
  match mget s1.socketToRoom c with
  | some r =>
    if r = "" then (s1.privateRooms, [])
    else
      let e1 := (membersExcept s1 r c).map
        (fun d => (d, OutEvent.partnerDisconnected))
      match mget s1.privateRooms r with
      | some room =>
        let uOpt := mget s1.socketToUsername c
        let ps := match uOpt with
                  | some u => room.participants.filter (fun p => decide (p ≠ u))
                  | none => room.participants
        let e2 := (membersExcept s1 r c).map
          (fun d => (d, OutEvent.userLeftRoom uOpt ps))
        (if ps.isEmpty then mdel s1.privateRooms r
         else mset s1.privateRooms r { room with participants := ps },
         e1 ++ e2)
      | none => (s1.privateRooms, e1)
  | none => (s1.privateRooms, [])

/-- `socket.on('disconnect')`: splice the socket's first entry out of
each queue, notify / update the bound room if any, then delete both
bindings; the transport also removes the socket from all socket.io
rooms. -/
def handleDisconnect (s : ServerState) (c : String) :
    ServerState × List Emit :=
  let s1 : ServerState :=
    { s with textChatQueue := removeFirstBy s.textChatQueue c,
             videoChatQueue := removeFirstBy s.videoChatQueue c }
  let pr := disconnectRoomPart s1 c
  ({ s1 with privateRooms := pr.1,
             socketToRoom := mdel s1.socketToRoom c,
             socketToUsername := mdel s1.socketToUsername c,
             joined := s1.joined.filter (fun p => decide (p.1 ≠ c)) }, pr.2)

/-- One inbound event dispatched to its handler, returning the new
state and the emitted events in emission order. -/
def step (s : ServerState) : Event → ServerState × List Emit
  | .joinTextChat c u => handleJoinText s c u
  | .joinVideoChat c u => handleJoinVideo s c u
  | .joinPrivateRoom c r u => handleJoinPrivate s c r u
  | .sendMessage c m => handleSendMessage s c m
  | .sendRoomMessage c r m sender => handleSendRoomMessage s c r m sender
  | .webrtcOffer c pr o => handleSignal s c pr (OutEvent.webrtcOfferOut o)
  | .webrtcAnswer c pr a => handleSignal s c pr (OutEvent.webrtcAnswerOut a)
  | .webrtcIce c pr cd => handleSignal s c pr (OutEvent.webrtcIceOut cd)
  | .findNewPartner c => handleFindNewPartner s c
  | .disconnect c => handleDisconnect s c

/-- The empty server state, with a given oracle stream of room codes. -/
def initState (ids : List String) : ServerState :=
  ⟨[], [], [], [], [], [], ids⟩

/-- The state after processing a list of events. -/
def runSt (s : ServerState) (es : List Event) : ServerState :=
  es.foldl (fun t e => (step t e).1) s

/-- The state just before event number `n` of the trace. -/
def stAt (ids : List String) (es : List Event) (n : Nat) : ServerState :=
  runSt (initState ids) (es.take n)

/-- The events emitted while processing event number `n` of the trace. -/
def emitsAt (ids : List String) (es : List Event) (n : Nat) : List Emit :=
  match es[n]? with
  | some e => (step (stAt ids es n) e).2
  | none => []

/-- Number of waiting entries of socket `c` in a queue. -/
def queueCount (q : List WaitingEntry) (c : String) : Nat :=
  q.countP (fun w => decide (w.sid = c))

/-- In how many of the three places {text queue, video queue, room
binding} connection `c` currently appears (queue entries counted with
multiplicity). -/
def placesOf (s : ServerState) (c : String) : Nat :=
  queueCount s.textChatQueue c + queueCount s.videoChatQueue c +
    (if (mget s.socketToRoom c).isSome then 1 else 0)

/-- `c` is in no queue and bound to no room. -/
def freeConn (s : ServerState) (c : String) : Bool :=
  decide (queueCount s.textChatQueue c = 0) &&
  decide (queueCount s.videoChatQueue c = 0) &&
  decide (mget s.socketToRoom c = none)

/-- An event is join-disciplined in state `s` when, if it is one of the
three join requests, its socket is currently neither queued nor bound. -/
def legalEvent (s : ServerState) : Event → Bool
  | .joinTextChat c _ => freeConn s c
  | .joinVideoChat c _ => freeConn s c
  | .joinPrivateRoom c _ _ => freeConn s c
  | _ => true

/-- Every event of the trace is join-disciplined in the state it is
processed in. -/
def legalTrace (s : ServerState) : List Event → Bool
  | [] => true
  | e :: es => legalEvent s e && legalTrace (step s e).1 es

/-- Socket `c` has a waiting entry in the text queue. -/
def inTextQ (s : ServerState) (c : String) : Bool :=
  s.textChatQueue.any (fun w => decide (w.sid = c))

/-- Some `chatMatched` event in `out` is addressed to socket `c`. -/
def gotMatched (out : List Emit) (c : String) : Bool :=
  out.any (fun e => decide (e.1 = c) &&
    (match e.2 with | OutEvent.chatMatched _ _ => true | _ => false))

/-- The participant list of private room `r` after `u` joins it:
unchanged if the name is already present, otherwise appended. -/
def newParts (s : ServerState) (r u : String) : List String :=
  let ps := ((mget s.privateRooms r).getD ⟨[], []⟩).participants
  if u ∈ ps then ps else ps ++ [u]

/-- The current participant list of private room `r` (empty if the room
does not exist). -/
def participantsOf (s : ServerState) (r : String) : List String :=
  ((mget s.privateRooms r).getD ⟨[], []⟩).participants

/-- A state with one waiting video entry, used to instantiate the
video-matching theorem. -/
def videoWaitingState : ServerState :=
  ⟨[], [⟨"A", "a"⟩], [], [], [], [], ["XYZ123"]⟩

/-- A state with sockets `A` and `B` in room `R` and `A` bound to it,
used to instantiate the message-relay theorem. -/
def boundRoomState : ServerState :=
  ⟨[], [], [], [("A", "R")], [("A", "alice")], [("A", "R"), ("B", "R")], []⟩

/-- A state with a private room `R` whose sole participant is `u`, used
to instantiate the idempotent-rejoin theorem. -/
def rejoinState : ServerState :=
  ⟨[], [], [("R", ⟨["u"], []⟩)], [], [], [], []⟩

/-- Socket `A` sends `joinTextChat` twice while the queue is otherwise
empty. -/
def selfMatchTrace : List Event :=
  [Event.joinTextChat "A" "alice", Event.joinTextChat "A" "alice"]

/-- Two text matches formed while the random-code oracle repeats itself,
then a message from the second pair. -/
def collisionTrace : List Event :=
  [Event.joinTextChat "A" "a", Event.joinTextChat "B" "b",
   Event.joinTextChat "C" "c", Event.joinTextChat "D" "d",
   Event.sendMessage "C" "hi"]

/-- One socket joins the text queue and then the video queue. -/
def doubleQueueTrace : List Event :=
  [Event.joinTextChat "A" "a", Event.joinVideoChat "A" "a"]

/-- `B` occupies private room `R`; `A`, bound to no room, sends a
WebRTC offer whose payload names `R`. -/
def unboundSignalTrace : List Event :=
  [Event.joinPrivateRoom "B" "R" "bob",
   Event.webrtcOffer "A" (some "R") "sdp"]

/-- Two sockets join the private room whose id is the empty string, and
the first then sends a message. -/
def emptyRoomIdTrace : List Event :=
  [Event.joinPrivateRoom "A" "" "alice",
   Event.joinPrivateRoom "B" "" "bob", Event.sendMessage "A" "hi"]

/-- `A` is enqueued, matched by `X`, and then `B` is enqueued. -/
def fifoTrace : List Event :=
  [Event.joinTextChat "A" "a", Event.joinTextChat "X" "x",
   Event.joinTextChat "B" "b"]

/-- A join-disciplined trace: two sockets each join the text queue
once. -/
def legalPairTrace : List Event :=
  [Event.joinTextChat "A" "a", Event.joinTextChat "B" "b"]

/-! ## Association-list and audience lemmas -/

theorem mget_mdel {α : Type} (m : List (String × α)) (k k2 : String) :
    mget (mdel m k) k2 = if k2 = k then none else mget m k2 := by
  induction m with
  | nil => simp [mdel, mget]
  | cons x xs ih =>
    by_cases hx : x.1 = k
    · by_cases h2 : k2 = k
      · simp [mdel, mget, hx, h2] at *
        exact ih
      · have hx2 : ¬ x.1 = k2 := fun hc => h2 (by rw [← hc, hx])
        have hks : ¬ k = k2 := fun hc => h2 hc.symm
        simp [mdel, mget, hx, hx2, h2, hks] at *
        exact ih
    · by_cases h2 : x.1 = k2
      · have hk : ¬ k2 = k := fun hc => hx (by rw [h2, hc])
        simp [mdel, mget, hx, h2, hk]
      · simp [mdel, mget, hx, h2] at *
        exact ih

theorem mget_mset {α : Type} (m : List (String × α)) (k : String) (v : α)
    (k2 : String) :
    mget (mset m k v) k2 = if k2 = k then some v else mget m k2 := by
  by_cases h : k2 = k
  · simp [mset, mget, h]
  · have hk : ¬ k = k2 := fun hc => h hc.symm
    simp [mset, mget, hk, h, mget_mdel]

theorem membersExcept_append_self (s : ServerState) (c r : String) :
    membersExcept { s with joined := s.joined ++ [(c, r)] } r c =
      membersExcept s r c := by
  simp [membersExcept, List.filter_append]

theorem membersExcept_joinRoom_self (s : ServerState) (c r r2 : String) :
    membersExcept (joinRoom s c r2) r c = membersExcept s r c := by
  unfold joinRoom
  by_cases h : (c, r2) ∈ s.joined
  · simp [h]
  · simp only [h, if_false]
    simp [membersExcept, List.filter_append]

theorem membersExcept_ne_self (s : ServerState) (r c d : String)
    (h : d ∈ membersExcept s r c) : d ≠ c := by
  simp only [membersExcept, List.mem_map, List.mem_filter] at h
  obtain ⟨p, ⟨_, hp⟩, rfl⟩ := h
  simp only [decide_eq_true_eq] at hp
  exact hp.2

theorem membersExcept_subset_members (s : ServerState) (r c d : String)
    (h : d ∈ membersExcept s r c) : d ∈ members s r := by
  simp only [membersExcept, List.mem_map, List.mem_filter] at h
  obtain ⟨p, ⟨hm, hp⟩, rfl⟩ := h
  simp only [decide_eq_true_eq] at hp
  simp only [members, List.mem_map, List.mem_filter]
  exact ⟨p, ⟨hm, by simp [hp.1]⟩, rfl⟩

/-! ## Claim theorems -/

/-- Claim C1: the claim says a connection that issues `joinTextChat`
while it is itself the only waiting entry is not paired with itself.
The code pops the connection's own entry and pairs it with itself: after
`A` sends `joinTextChat` twice, the second request emits `chatMatched`
to `A` twice, naming `A`'s own username as the partner, and binds `A`
to the new room. -/
theorem joinTextChat_matches_self :
    emitsAt ["ROOM01"] selfMatchTrace 1 =
      [("A", OutEvent.chatMatched "alice" "text_ROOM01"),
       ("A", OutEvent.chatMatched "alice" "text_ROOM01")] ∧
    mget (stAt ["ROOM01"] selfMatchTrace 2).socketToRoom "A" =
      some "text_ROOM01" ∧
    (stAt ["ROOM01"] selfMatchTrace 2).textChatQueue = [] := by
  refine ⟨rfl, rfl, rfl⟩

/-- Claim C2: the claim says room-id generation performs a collision
check against live rooms and retries, so no two live rooms share an
identifier.  `generateRoomId` consults no room state: when the random
source repeats a code, two separately matched pairs receive the same
room identifier while all four sockets stay bound (both rooms live),
and a message sent inside the second pair is delivered into the first
pair as well. -/
theorem roomId_collision_between_live_rooms :
    emitsAt ["QQQQQQ", "QQQQQQ"] collisionTrace 1 =
      [("B", OutEvent.chatMatched "a" "text_QQQQQQ"),
       ("A", OutEvent.chatMatched "b" "text_QQQQQQ")] ∧
    emitsAt ["QQQQQQ", "QQQQQQ"] collisionTrace 3 =
      [("D", OutEvent.chatMatched "c" "text_QQQQQQ"),
       ("C", OutEvent.chatMatched "d" "text_QQQQQQ")] ∧
    mget (stAt ["QQQQQQ", "QQQQQQ"] collisionTrace 4).socketToRoom "A" =
      some "text_QQQQQQ" ∧
    mget (stAt ["QQQQQQ", "QQQQQQ"] collisionTrace 4).socketToRoom "C" =
      some "text_QQQQQQ" ∧
    ("A", OutEvent.messageReceived "hi" (some "c")) ∈
      emitsAt ["QQQQQQ", "QQQQQQ"] collisionTrace 4 := by
  refine ⟨rfl, rfl, rfl, rfl, by decide⟩

/-- Claim C3, counterexample: the claim says no event sequence puts a
connection in both queues, but after `joinTextChat` followed by
`joinVideoChat` socket `A` waits in both queues at once. -/
theorem connection_in_both_queues :
    (stAt [] doubleQueueTrace 2).textChatQueue = [⟨"A", "a"⟩] ∧
    (stAt [] doubleQueueTrace 2).videoChatQueue = [⟨"A", "a"⟩] ∧
    placesOf (stAt [] doubleQueueTrace 2) "A" = 2 := by
  refine ⟨rfl, rfl, rfl⟩

theorem joinRoom_textChatQueue (s : ServerState) (c r : String) :
    (joinRoom s c r).textChatQueue = s.textChatQueue := by
  unfold joinRoom; split <;> rfl

theorem joinRoom_videoChatQueue (s : ServerState) (c r : String) :
    (joinRoom s c r).videoChatQueue = s.videoChatQueue := by
  unfold joinRoom; split <;> rfl

theorem joinRoom_privateRooms (s : ServerState) (c r : String) :
    (joinRoom s c r).privateRooms = s.privateRooms := by
  unfold joinRoom; split <;> rfl

theorem joinRoom_socketToRoom (s : ServerState) (c r : String) :
    (joinRoom s c r).socketToRoom = s.socketToRoom := by
  unfold joinRoom; split <;> rfl

theorem joinRoom_socketToUsername (s : ServerState) (c r : String) :
    (joinRoom s c r).socketToUsername = s.socketToUsername := by
  unfold joinRoom; split <;> rfl

/-- Claim C4, counterexample: `B` occupies room `R`; `A` has no bound
room, yet its `webrtc-offer` carrying `roomId: "R"` is relayed to `B`
instead of being dropped. -/
theorem unbound_webrtc_offer_relayed :
    mget (stAt [] unboundSignalTrace 1).socketToRoom "A" = none ∧
    emitsAt [] unboundSignalTrace 1 = [("B", OutEvent.webrtcOfferOut "sdp")] :=
  ⟨rfl, rfl⟩

/-- Claim C8, counterexample: both `A` and `B` join the private room
whose identifier is the empty string; `A` is bound to it and `B` is
another occupant, yet `A`'s message is dropped (the empty room id is
falsy), so it is not delivered to every other occupant. -/
theorem sendMessage_dropped_in_empty_id_room :
    mget (stAt [] emptyRoomIdTrace 2).socketToRoom "A" = some "" ∧
    members (stAt [] emptyRoomIdTrace 2) "" = ["A", "B"] ∧
    emitsAt [] emptyRoomIdTrace 2 = [] :=
  ⟨rfl, rfl, rfl⟩

/-- Claim C10: `sendRoomMessage` relays `{message, sender}` verbatim to
the other members of the payload-supplied room, changes no state, and
consults neither the sender's room binding nor its registered username:
the emitted events are the same under arbitrary replacement of the two
binding maps. -/
theorem sendRoomMessage_unchecked_relay :
    ∀ (s : ServerState) (c r m sender : String),
      step s (Event.sendRoomMessage c r m sender) =
        (s, (membersExcept s r c).map
              (fun d => (d, OutEvent.roomMessage m sender))) ∧
      ∀ (rm um : List (String × String)),
        (step { s with socketToRoom := rm, socketToUsername := um }
            (Event.sendRoomMessage c r m sender)).2 =
          (membersExcept s r c).map
            (fun d => (d, OutEvent.roomMessage m sender)) := by
  intro s c r m sender
  exact ⟨rfl, fun rm um => rfl⟩

/-- Claim C7: `joinPrivateRoom` answers the caller with `roomJoined`
whose offer flag is set exactly when the updated occupant list has
length 2 with the caller's name first, and notifies the other room
members with `userJoinedRoom` whose offer flag is set exactly when the
updated occupant list has length 2 with a name other than the joiner's
first. -/
theorem joinPrivateRoom_offer_flags :
    ∀ (s : ServerState) (c r u : String),
      (step s (Event.joinPrivateRoom c r u)).2 =
        (c, OutEvent.roomJoined (newParts s r u)
            (decide ((newParts s r u).length = 2 ∧
                     (newParts s r u).head? = some u))) ::
        (membersExcept s r c).map
          (fun d => (d, OutEvent.userJoinedRoom u (newParts s r u)
            (decide ((newParts s r u).length = 2 ∧
                     (newParts s r u).head? ≠ some u)))) := by
  intro s c r u
  show (handleJoinPrivate s c r u).2 = _
  unfold handleJoinPrivate
  simp only [joinRoom_privateRooms, membersExcept_joinRoom_self, newParts]
  rfl

/-- Claim C6: when the video queue holds a waiting entry, a
`joinVideoChat` pops it and emits `videoChatMatched` to both sockets
with one shared room id; the new arrival's flag is `true` and the
dequeued waiter's flag is `false`. -/
theorem joinVideoChat_offer_flags :
    ∀ (s : ServerState) (c u : String) (p : WaitingEntry)
      (rest : List WaitingEntry),
      s.videoChatQueue = p :: rest →
      (step s (Event.joinVideoChat c u)).2 =
        [(c, OutEvent.videoChatMatched p.username
              ("video_" ++ s.idStream.headD "") true),
         (p.sid, OutEvent.videoChatMatched u
              ("video_" ++ s.idStream.headD "") false)] ∧
      (step s (Event.joinVideoChat c u)).1.videoChatQueue = rest := by
  intro s c u p rest h
  show (handleJoinVideo s c u).2 = _ ∧ (handleJoinVideo s c u).1.videoChatQueue = rest
  unfold handleJoinVideo
  rw [h]
  exact ⟨rfl, by simp [joinRoom_videoChatQueue]⟩

theorem joinVideoChat_offer_flags_witness :
    (step videoWaitingState (Event.joinVideoChat "B" "b")).2 =
      [("B", OutEvent.videoChatMatched "a" "video_XYZ123" true),
       ("A", OutEvent.videoChatMatched "b" "video_XYZ123" false)] ∧
    (step videoWaitingState (Event.joinVideoChat "B" "b")).1.videoChatQueue = [] :=
  joinVideoChat_offer_flags videoWaitingState "B" "b" ⟨"A", "a"⟩ [] rfl

/-- Claim C9: re-joining a private room with a display name already in
its occupant list leaves the occupant list unchanged. -/
theorem joinPrivateRoom_rejoin_idempotent :
    ∀ (s : ServerState) (c r u : String),
      u ∈ participantsOf s r →
      participantsOf ((step s (Event.joinPrivateRoom c r u)).1) r =
        participantsOf s r := by
  intro s c r u h
  show participantsOf (handleJoinPrivate s c r u).1 r = _
  unfold handleJoinPrivate
  unfold participantsOf at h ⊢
  simp [joinRoom_privateRooms, mget_mset, h]

theorem joinPrivateRoom_rejoin_idempotent_witness :
    participantsOf ((step rejoinState (Event.joinPrivateRoom "c" "R" "u")).1) "R" =
      participantsOf rejoinState "R" :=
  joinPrivateRoom_rejoin_idempotent rejoinState "c" "R" "u" (by decide)

/-- Claim C8, amended: a `sendMessage` from a connection bound to a
room with a nonempty identifier is delivered as
`messageReceived {message, sender := registered name}` to exactly the
other members of that room — never back to the sender and to no one
outside the room — with no state change; when the bound identifier is
the empty string the event is dropped. -/
theorem sendMessage_delivery :
    ∀ (s : ServerState) (c m r : String),
      (mget s.socketToRoom c = some r → r ≠ "" →
        (step s (Event.sendMessage c m)).1 = s ∧
        (step s (Event.sendMessage c m)).2 =
          (membersExcept s r c).map
            (fun d => (d, OutEvent.messageReceived m
                (mget s.socketToUsername c))) ∧
        ∀ d ∈ (step s (Event.sendMessage c m)).2.map Prod.fst,
          d ≠ c ∧ d ∈ members s r) ∧
      (mget s.socketToRoom c = some "" →
        step s (Event.sendMessage c m) = (s, [])) := by
  intro s c m r
  constructor
  · intro hb hr
    have hstep : step s (Event.sendMessage c m) =
        (s, (membersExcept s r c).map
          (fun d => (d, OutEvent.messageReceived m
            (mget s.socketToUsername c)))) := by
      show handleSendMessage s c m = _
      simp [handleSendMessage, hb, hr]
    refine ⟨by rw [hstep], by rw [hstep], ?_⟩
    intro d hd
    rw [hstep] at hd
    simp only [List.map_map, List.mem_map, Function.comp] at hd
    obtain ⟨x, hx, rfl⟩ := hd
    exact ⟨membersExcept_ne_self s r c x hx,
           membersExcept_subset_members s r c x hx⟩
  · intro hb
    show handleSendMessage s c m = _
    simp [handleSendMessage, hb]

theorem sendMessage_delivery_witness :
    (step boundRoomState (Event.sendMessage "A" "hi")).1 = boundRoomState ∧
    (step boundRoomState (Event.sendMessage "A" "hi")).2 =
      (membersExcept boundRoomState "R" "A").map
        (fun d => (d, OutEvent.messageReceived "hi"
            (mget boundRoomState.socketToUsername "A"))) ∧
    ∀ d ∈ (step boundRoomState (Event.sendMessage "A" "hi")).2.map Prod.fst,
      d ≠ "A" ∧ d ∈ members boundRoomState "R" :=
  (sendMessage_delivery boundRoomState "A" "hi" "R").1 rfl (by decide)

/-- Claim C4, amended: from a connection with no bound room,
`sendMessage` is dropped silently (no emission, no state change), and
each WebRTC signaling event is dropped only when its payload supplies
no room id or an empty one; otherwise it is relayed to the other
members of the payload-supplied room (still with no state change). -/
theorem unbound_relay_events :
    ∀ (s : ServerState) (c : String),
      mget s.socketToRoom c = none →
      (∀ m : String, step s (Event.sendMessage c m) = (s, [])) ∧
      (∀ o : String, step s (Event.webrtcOffer c none o) = (s, []) ∧
          step s (Event.webrtcOffer c (some "") o) = (s, [])) ∧
      (∀ r o : String, r ≠ "" →
          step s (Event.webrtcOffer c (some r) o) =
            (s, (membersExcept s r c).map
              (fun d => (d, OutEvent.webrtcOfferOut o)))) ∧
      (∀ a : String, step s (Event.webrtcAnswer c none a) = (s, []) ∧
          step s (Event.webrtcAnswer c (some "") a) = (s, [])) ∧
      (∀ r a : String, r ≠ "" →
          step s (Event.webrtcAnswer c (some r) a) =
            (s, (membersExcept s r c).map
              (fun d => (d, OutEvent.webrtcAnswerOut a)))) ∧
      (∀ cd : String, step s (Event.webrtcIce c none cd) = (s, []) ∧
          step s (Event.webrtcIce c (some "") cd) = (s, [])) ∧
      (∀ r cd : String, r ≠ "" →
          step s (Event.webrtcIce c (some r) cd) =
            (s, (membersExcept s r c).map
              (fun d => (d, OutEvent.webrtcIceOut cd)))) := by
  intro s c hb
  have hmsg : ∀ m : String, step s (Event.sendMessage c m) = (s, []) := by
    intro m
    show handleSendMessage s c m = _
    simp [handleSendMessage, hb]
  have hnone : ∀ out : OutEvent, handleSignal s c none out = (s, []) := by
    intro out
    simp [handleSignal, jsOr, hb]
  have hempty : ∀ out : OutEvent, handleSignal s c (some "") out = (s, []) := by
    intro out
    simp [handleSignal, jsOr, hb]
  have hrelay : ∀ (r : String) (out : OutEvent), r ≠ "" →
      handleSignal s c (some r) out =
        (s, (membersExcept s r c).map (fun d => (d, out))) := by
    intro r out hr
    simp [handleSignal, jsOr, hb, hr]
  exact ⟨hmsg,
    fun o => ⟨hnone _, hempty _⟩, fun r o hr => hrelay r _ hr,
    fun a => ⟨hnone _, hempty _⟩, fun r a hr => hrelay r _ hr,
    fun cd => ⟨hnone _, hempty _⟩, fun r cd hr => hrelay r _ hr⟩

theorem unbound_relay_events_witness :
    (∀ m : String, step boundRoomState (Event.sendMessage "C" m) =
        (boundRoomState, [])) ∧
    (∀ o : String, step boundRoomState (Event.webrtcOffer "C" none o) =
        (boundRoomState, []) ∧
      step boundRoomState (Event.webrtcOffer "C" (some "") o) =
        (boundRoomState, [])) ∧
    (∀ r o : String, r ≠ "" →
        step boundRoomState (Event.webrtcOffer "C" (some r) o) =
          (boundRoomState, (membersExcept boundRoomState r "C").map
            (fun d => (d, OutEvent.webrtcOfferOut o)))) ∧
    (∀ a : String, step boundRoomState (Event.webrtcAnswer "C" none a) =
        (boundRoomState, []) ∧
      step boundRoomState (Event.webrtcAnswer "C" (some "") a) =
        (boundRoomState, [])) ∧
    (∀ r a : String, r ≠ "" →
        step boundRoomState (Event.webrtcAnswer "C" (some r) a) =
          (boundRoomState, (membersExcept boundRoomState r "C").map
            (fun d => (d, OutEvent.webrtcAnswerOut a)))) ∧
    (∀ cd : String, step boundRoomState (Event.webrtcIce "C" none cd) =
        (boundRoomState, []) ∧
      step boundRoomState (Event.webrtcIce "C" (some "") cd) =
        (boundRoomState, [])) ∧
    (∀ r cd : String, r ≠ "" →
        step boundRoomState (Event.webrtcIce "C" (some r) cd) =
          (boundRoomState, (membersExcept boundRoomState r "C").map
            (fun d => (d, OutEvent.webrtcIceOut cd)))) :=
  unbound_relay_events boundRoomState "C" rfl

/-! ## Queue-count lemmas and handler state characterizations -/

theorem queueCount_cons (w : WaitingEntry) (q : List WaitingEntry) (c : String) :
    queueCount (w :: q) c = (if w.sid = c then 1 else 0) + queueCount q c := by
  simp [queueCount, List.countP_cons]
  split <;> omega

theorem queueCount_append (q1 q2 : List WaitingEntry) (c : String) :
    queueCount (q1 ++ q2) c = queueCount q1 c + queueCount q2 c := by
  simp [queueCount, List.countP_append]

theorem queueCount_removeFirstBy_ne (q : List WaitingEntry) (c d : String)
    (h : d ≠ c) : queueCount (removeFirstBy q c) d = queueCount q d := by
  induction q with
  | nil => rfl
  | cons x xs ih =>
    by_cases hx : x.sid = c
    · have hxd : ¬ x.sid = d := fun hc => h (by rw [← hc, hx])
      have hcd : ¬ c = d := fun hc => h hc.symm
      simp [removeFirstBy, hx, queueCount_cons, hxd, hcd]
    · simp [removeFirstBy, hx, queueCount_cons, ih]

theorem queueCount_removeFirstBy_le (q : List WaitingEntry) (c d : String) :
    queueCount (removeFirstBy q c) d ≤ queueCount q d := by
  induction q with
  | nil => exact Nat.le_refl _
  | cons x xs ih =>
    by_cases hx : x.sid = c
    · simp only [removeFirstBy, hx, if_pos, queueCount_cons]
      omega
    · simp only [removeFirstBy, hx, if_neg, not_false_iff, queueCount_cons]
      omega

theorem handleJoinText_match_fields (s : ServerState) (c u : String)
    (p : WaitingEntry) (rest : List WaitingEntry)
    (h : s.textChatQueue = p :: rest) :
    (handleJoinText s c u).1.textChatQueue = rest ∧
    (handleJoinText s c u).1.videoChatQueue = s.videoChatQueue ∧
    (handleJoinText s c u).1.socketToRoom =
      mset (mset s.socketToRoom c ("text_" ++ s.idStream.headD ""))
        p.sid ("text_" ++ s.idStream.headD "") := by
  unfold handleJoinText
  rw [h]
  refine ⟨by simp [joinRoom_textChatQueue], by simp [joinRoom_videoChatQueue],
    by simp [joinRoom_socketToRoom]⟩

theorem handleJoinText_empty_fields (s : ServerState) (c u : String)
    (h : s.textChatQueue = []) :
    (handleJoinText s c u).1.textChatQueue = s.textChatQueue ++ [⟨c, u⟩] ∧
    (handleJoinText s c u).1.videoChatQueue = s.videoChatQueue ∧
    (handleJoinText s c u).1.socketToRoom = s.socketToRoom := by
  unfold handleJoinText
  rw [h]
  exact ⟨by simp, rfl, rfl⟩

theorem handleJoinVideo_match_fields (s : ServerState) (c u : String)
    (p : WaitingEntry) (rest : List WaitingEntry)
    (h : s.videoChatQueue = p :: rest) :
    (handleJoinVideo s c u).1.videoChatQueue = rest ∧
    (handleJoinVideo s c u).1.textChatQueue = s.textChatQueue ∧
    (handleJoinVideo s c u).1.socketToRoom =
      mset (mset s.socketToRoom c ("video_" ++ s.idStream.headD ""))
        p.sid ("video_" ++ s.idStream.headD "") := by
  unfold handleJoinVideo
  rw [h]
  refine ⟨by simp [joinRoom_videoChatQueue], by simp [joinRoom_textChatQueue],
    by simp [joinRoom_socketToRoom]⟩

theorem handleJoinVideo_empty_fields (s : ServerState) (c u : String)
    (h : s.videoChatQueue = []) :
    (handleJoinVideo s c u).1.videoChatQueue = s.videoChatQueue ++ [⟨c, u⟩] ∧
    (handleJoinVideo s c u).1.textChatQueue = s.textChatQueue ∧
    (handleJoinVideo s c u).1.socketToRoom = s.socketToRoom := by
  unfold handleJoinVideo
  rw [h]
  exact ⟨by simp, rfl, rfl⟩

theorem handleJoinPrivate_fields (s : ServerState) (c r u : String) :
    (handleJoinPrivate s c r u).1.textChatQueue = s.textChatQueue ∧
    (handleJoinPrivate s c r u).1.videoChatQueue = s.videoChatQueue ∧
    (handleJoinPrivate s c r u).1.socketToRoom = mset s.socketToRoom c r := by
  unfold handleJoinPrivate
  exact ⟨by simp [joinRoom_textChatQueue], by simp [joinRoom_videoChatQueue],
    by simp [joinRoom_socketToRoom]⟩

theorem handleSendMessage_state (s : ServerState) (c m : String) :
    (handleSendMessage s c m).1 = s := by
  unfold handleSendMessage
  cases mget s.socketToRoom c with
  | none => rfl
  | some r =>
    dsimp only
    split <;> rfl

theorem handleSignal_state (s : ServerState) (c : String) (pr : Option String)
    (out : OutEvent) : (handleSignal s c pr out).1 = s := by
  unfold handleSignal
  cases jsOr (mget s.socketToRoom c) pr with
  | none => rfl
  | some r =>
    dsimp only
    split <;> rfl

theorem handleFindNewPartner_fields (s : ServerState) (c : String) :
    (handleFindNewPartner s c).1.textChatQueue = s.textChatQueue ∧
    (handleFindNewPartner s c).1.videoChatQueue = s.videoChatQueue ∧
    ((handleFindNewPartner s c).1.socketToRoom = s.socketToRoom ∨
     (handleFindNewPartner s c).1.socketToRoom = mdel s.socketToRoom c) := by
  unfold handleFindNewPartner
  cases mget s.socketToRoom c with
  | none => exact ⟨rfl, rfl, Or.inl rfl⟩
  | some r =>
    dsimp only
    by_cases hr : r = ""
    · rw [if_pos hr]
      exact ⟨rfl, rfl, Or.inl rfl⟩
    · rw [if_neg hr]
      exact ⟨rfl, rfl, Or.inr rfl⟩

theorem handleDisconnect_fields (s : ServerState) (c : String) :
    (handleDisconnect s c).1.textChatQueue = removeFirstBy s.textChatQueue c ∧
    (handleDisconnect s c).1.videoChatQueue = removeFirstBy s.videoChatQueue c ∧
    (handleDisconnect s c).1.socketToRoom = mdel s.socketToRoom c :=
  ⟨rfl, rfl, rfl⟩

theorem queueCount_singleton (c u d : String) :
    queueCount [⟨c, u⟩] d = if c = d then 1 else 0 := by
  simp [queueCount, List.countP_cons, List.countP_nil]

theorem roomterm_some (x : String) :
    (if (some x).isSome = true then (1 : Nat) else 0) = 1 := rfl

theorem roomterm_none :
    (if (none : Option String).isSome = true then (1 : Nat) else 0) = 0 := rfl

theorem placesOf_step_le (s : ServerState) (e : Event)
    (inv : ∀ c, placesOf s c ≤ 1) (hl : legalEvent s e = true) (d : String) :
    placesOf (step s e).1 d ≤ 1 := by
  cases e with
  | joinTextChat c u =>
    have hfree : (queueCount s.textChatQueue c = 0 ∧
        queueCount s.videoChatQueue c = 0) ∧ mget s.socketToRoom c = none := by
      simpa [legalEvent, freeConn, Bool.and_eq_true, decide_eq_true_eq] using hl
    obtain ⟨⟨hq0, hv0⟩, hr0⟩ := hfree
    have hd := inv d
    unfold placesOf at hd
    cases hq : s.textChatQueue with
    | nil =>
      obtain ⟨hft, hfv, hfr⟩ := handleJoinText_empty_fields s c u hq
      show placesOf (handleJoinText s c u).1 d ≤ 1
      unfold placesOf
      rw [hft, hfv, hfr, queueCount_append, queueCount_singleton]
      by_cases hdc : c = d
      · rw [if_pos hdc, ← hdc, hq0, hv0, hr0, roomterm_none]
      · rw [if_neg hdc]
        omega
    | cons p rest =>
      obtain ⟨hft, hfv, hfr⟩ := handleJoinText_match_fields s c u p rest hq
      show placesOf (handleJoinText s c u).1 d ≤ 1
      unfold placesOf
      rw [hft, hfv, hfr, mget_mset, mget_mset]
      rw [hq, queueCount_cons] at hd
      have hqc := hq0
      rw [hq, queueCount_cons] at hqc
      by_cases hdp : d = p.sid
      · rw [if_pos hdp, roomterm_some]
        rw [if_pos hdp.symm] at hd
        omega
      · rw [if_neg hdp]
        rw [if_neg (fun hc => hdp hc.symm : ¬ p.sid = d)] at hd
        by_cases hdc : d = c
        · rw [if_pos hdc, roomterm_some, hdc]
          omega
        · rw [if_neg hdc]
          omega
  | joinVideoChat c u =>
    have hfree : (queueCount s.textChatQueue c = 0 ∧
        queueCount s.videoChatQueue c = 0) ∧ mget s.socketToRoom c = none := by
      simpa [legalEvent, freeConn, Bool.and_eq_true, decide_eq_true_eq] using hl
    obtain ⟨⟨hq0, hv0⟩, hr0⟩ := hfree
    have hd := inv d
    unfold placesOf at hd
    cases hq : s.videoChatQueue with
    | nil =>
      obtain ⟨hfv, hft, hfr⟩ := handleJoinVideo_empty_fields s c u hq
      show placesOf (handleJoinVideo s c u).1 d ≤ 1
      unfold placesOf
      rw [hft, hfv, hfr, queueCount_append, queueCount_singleton]
      by_cases hdc : c = d
      · rw [if_pos hdc, ← hdc, hq0, hv0, hr0, roomterm_none]
      · rw [if_neg hdc]
        omega
    | cons p rest =>
      obtain ⟨hfv, hft, hfr⟩ := handleJoinVideo_match_fields s c u p rest hq
      show placesOf (handleJoinVideo s c u).1 d ≤ 1
      unfold placesOf
      rw [hft, hfv, hfr, mget_mset, mget_mset]
      rw [hq, queueCount_cons] at hd
      have hqc := hv0
      rw [hq, queueCount_cons] at hqc
      by_cases hdp : d = p.sid
      · rw [if_pos hdp, roomterm_some]
        rw [if_pos hdp.symm] at hd
        omega
      · rw [if_neg hdp]
        rw [if_neg (fun hc => hdp hc.symm : ¬ p.sid = d)] at hd
        by_cases hdc : d = c
        · rw [if_pos hdc, roomterm_some, hdc]
          omega
        · rw [if_neg hdc]
          omega
  | joinPrivateRoom c r u =>
    have hfree : (queueCount s.textChatQueue c = 0 ∧
        queueCount s.videoChatQueue c = 0) ∧ mget s.socketToRoom c = none := by
      simpa [legalEvent, freeConn, Bool.and_eq_true, decide_eq_true_eq] using hl
    obtain ⟨⟨hq0, hv0⟩, hr0⟩ := hfree
    obtain ⟨hft, hfv, hfr⟩ := handleJoinPrivate_fields s c r u
    have hd := inv d
    unfold placesOf at hd
    show placesOf (handleJoinPrivate s c r u).1 d ≤ 1
    unfold placesOf
    rw [hft, hfv, hfr, mget_mset]
    by_cases hdc : d = c
    · rw [if_pos hdc, roomterm_some, hdc, hq0, hv0]
    · rw [if_neg hdc]
      omega
  | sendMessage c m =>
    show placesOf (handleSendMessage s c m).1 d ≤ 1
    rw [handleSendMessage_state]
    exact inv d
  | sendRoomMessage c r m sender =>
    exact inv d
  | webrtcOffer c pr o =>
    show placesOf (handleSignal s c pr (OutEvent.webrtcOfferOut o)).1 d ≤ 1
    rw [handleSignal_state]
    exact inv d
  | webrtcAnswer c pr a =>
    show placesOf (handleSignal s c pr (OutEvent.webrtcAnswerOut a)).1 d ≤ 1
    rw [handleSignal_state]
    exact inv d
  | webrtcIce c pr cd =>
    show placesOf (handleSignal s c pr (OutEvent.webrtcIceOut cd)).1 d ≤ 1
    rw [handleSignal_state]
    exact inv d
  | findNewPartner c =>
    obtain ⟨hft, hfv, hfr⟩ := handleFindNewPartner_fields s c
    have hd := inv d
    unfold placesOf at hd
    show placesOf (handleFindNewPartner s c).1 d ≤ 1
    unfold placesOf
    rw [hft, hfv]
    cases hfr with
    | inl h => rw [h]; exact hd
    | inr h =>
      rw [h, mget_mdel]
      by_cases hdc : d = c
      · rw [if_pos hdc, roomterm_none]
        omega
      · rw [if_neg hdc]
        omega
  | disconnect c =>
    obtain ⟨hft, hfv, hfr⟩ := handleDisconnect_fields s c
    have hd := inv d
    unfold placesOf at hd
    have h1 := queueCount_removeFirstBy_le s.textChatQueue c d
    have h2 := queueCount_removeFirstBy_le s.videoChatQueue c d
    show placesOf (handleDisconnect s c).1 d ≤ 1
    unfold placesOf
    rw [hft, hfv, hfr, mget_mdel]
    by_cases hdc : d = c
    · rw [if_pos hdc, roomterm_none]
      omega
    · rw [if_neg hdc]
      omega

theorem legalTrace_cons (s : ServerState) (e : Event) (es : List Event) :
    legalTrace s (e :: es) = (legalEvent s e && legalTrace (step s e).1 es) := rfl

theorem places_le_one_run (es : List Event) :
    ∀ s : ServerState, (∀ c, placesOf s c ≤ 1) → legalTrace s es = true →
      ∀ c, placesOf (runSt s es) c ≤ 1 := by
  induction es with
  | nil => exact fun s inv _ c => inv c
  | cons e es ih =>
    intro s inv hl c
    rw [legalTrace_cons, Bool.and_eq_true] at hl
    exact ih (step s e).1 (placesOf_step_le s e inv hl.1) hl.2 c

/-- Claim C3, amended: for join-disciplined traces — no connection issues
`joinTextChat`, `joinVideoChat` or `joinPrivateRoom` while it is already
waiting in a queue or bound to a room — every connection occupies at
most one of the three places (text queue, video queue, room binding) in
every reachable state.  Without the discipline the invariant fails (see
the counterexample). -/
theorem one_place_invariant :
    ∀ (ids : List String) (es : List Event) (c : String),
      legalTrace (initState ids) es = true →
      placesOf (runSt (initState ids) es) c ≤ 1 := by
  intro ids es c hl
  refine places_le_one_run es (initState ids) (fun d => ?_) hl c
  show placesOf (initState ids) d ≤ 1
  rw [show placesOf (initState ids) d = 0 from rfl]
  omega

theorem one_place_invariant_witness :
    placesOf (runSt (initState []) legalPairTrace) "A" ≤ 1 :=
  one_place_invariant [] legalPairTrace "A" (by decide)

/-! ## FIFO machinery for the text-chat queue -/

theorem stAt_succ (ids : List String) (es : List Event) (n : Nat) (e : Event)
    (h : es[n]? = some e) :
    stAt ids es (n + 1) = (step (stAt ids es n) e).1 := by
  unfold stAt runSt
  rw [List.take_succ, h, List.foldl_append]
  rfl

theorem exists_flip (f : Nat → Bool) :
    ∀ (d i j : Nat), j - i = d → i ≤ j → f i = true → f j = false →
      ∃ k, i ≤ k ∧ k < j ∧ f k = true ∧ f (k + 1) = false := by
  intro d
  induction d with
  | zero =>
    intro i j hd hij hi hj
    have : i = j := by omega
    rw [this, hj] at hi
    simp at hi
  | succ n ih =>
    intro i j hd hij hi hj
    have hlt : i < j := by omega
    cases hfi : f (i + 1) with
    | false => exact ⟨i, Nat.le_refl i, hlt, hi, hfi⟩
    | true =>
      obtain ⟨k, h1, h2, h3, h4⟩ := ih (i + 1) j (by omega) (by omega) hfi hj
      exact ⟨k, by omega, h2, h3, h4⟩

theorem handleJoinText_match_emits (s : ServerState) (c u : String)
    (p : WaitingEntry) (rest : List WaitingEntry)
    (h : s.textChatQueue = p :: rest) :
    (handleJoinText s c u).2 =
      [(c, OutEvent.chatMatched p.username ("text_" ++ s.idStream.headD "")),
       (p.sid, OutEvent.chatMatched u ("text_" ++ s.idStream.headD ""))] := by
  unfold handleJoinText
  rw [h]

theorem handleJoinText_empty_emits (s : ServerState) (c u : String)
    (h : s.textChatQueue = []) : (handleJoinText s c u).2 = [] := by
  unfold handleJoinText
  rw [h]

theorem handleJoinVideo_textChatQueue (s : ServerState) (c u : String) :
    (handleJoinVideo s c u).1.textChatQueue = s.textChatQueue := by
  cases hq : s.videoChatQueue with
  | nil => exact (handleJoinVideo_empty_fields s c u hq).2.1
  | cons p rest => exact (handleJoinVideo_match_fields s c u p rest hq).2.1

theorem any_removeFirstBy_ne (q : List WaitingEntry) (c A : String)
    (h : A ≠ c) :
    (removeFirstBy q c).any (fun w => decide (w.sid = A)) =
      q.any (fun w => decide (w.sid = A)) := by
  induction q with
  | nil => rfl
  | cons x xs ih =>
    by_cases hx : x.sid = c
    · have hxA : ¬ x.sid = A := fun hc => h (by rw [← hc, hx])
      rw [show removeFirstBy (x :: xs) c = xs from by simp [removeFirstBy, hx]]
      rw [List.any_cons,
        show decide (x.sid = A) = false from by simp [hxA], Bool.false_or]
    · rw [show removeFirstBy (x :: xs) c = x :: removeFirstBy xs c from by
        simp [removeFirstBy, hx]]
      rw [List.any_cons, List.any_cons, ih]

theorem step_dequeued_matched (s : ServerState) (e : Event) (A : String)
    (h1 : inTextQ s A = true) (h2 : inTextQ (step s e).1 A = false)
    (h3 : e ≠ Event.disconnect A) :
    gotMatched (step s e).2 A = true := by
  cases e with
  | joinTextChat c u =>
    cases hq : s.textChatQueue with
    | nil =>
      unfold inTextQ at h1
      rw [hq] at h1
      simp at h1
    | cons p rest =>
      obtain ⟨hft, _, _⟩ := handleJoinText_match_fields s c u p rest hq
      have hemits := handleJoinText_match_emits s c u p rest hq
      have hA : p.sid = A := by
        unfold inTextQ at h1 h2
        rw [hq, List.any_cons] at h1
        rw [show (step s (Event.joinTextChat c u)).1 =
              (handleJoinText s c u).1 from rfl, hft] at h2
        rw [h2, Bool.or_false, decide_eq_true_eq] at h1
        exact h1
      show gotMatched (handleJoinText s c u).2 A = true
      rw [hemits]
      simp [gotMatched, hA]
  | joinVideoChat c u =>
    unfold inTextQ at h1 h2
    rw [show (step s (Event.joinVideoChat c u)).1 =
          (handleJoinVideo s c u).1 from rfl,
        handleJoinVideo_textChatQueue, h1] at h2
    simp at h2
  | joinPrivateRoom c r u =>
    unfold inTextQ at h1 h2
    rw [show (step s (Event.joinPrivateRoom c r u)).1 =
          (handleJoinPrivate s c r u).1 from rfl,
        (handleJoinPrivate_fields s c r u).1, h1] at h2
    simp at h2
  | sendMessage c m =>
    unfold inTextQ at h1 h2
    rw [show (step s (Event.sendMessage c m)).1 =
          (handleSendMessage s c m).1 from rfl,
        handleSendMessage_state, h1] at h2
    simp at h2
  | sendRoomMessage c r m sender =>
    unfold inTextQ at h1 h2
    rw [show (step s (Event.sendRoomMessage c r m sender)).1 = s from rfl,
        h1] at h2
    simp at h2
  | webrtcOffer c pr o =>
    unfold inTextQ at h1 h2
    rw [show (step s (Event.webrtcOffer c pr o)).1 =
          (handleSignal s c pr (OutEvent.webrtcOfferOut o)).1 from rfl,
        handleSignal_state, h1] at h2
    simp at h2
  | webrtcAnswer c pr a =>
    unfold inTextQ at h1 h2
    rw [show (step s (Event.webrtcAnswer c pr a)).1 =
          (handleSignal s c pr (OutEvent.webrtcAnswerOut a)).1 from rfl,
        handleSignal_state, h1] at h2
    simp at h2
  | webrtcIce c pr cd =>
    unfold inTextQ at h1 h2
    rw [show (step s (Event.webrtcIce c pr cd)).1 =
          (handleSignal s c pr (OutEvent.webrtcIceOut cd)).1 from rfl,
        handleSignal_state, h1] at h2
    simp at h2
  | findNewPartner c =>
    unfold inTextQ at h1 h2
    rw [show (step s (Event.findNewPartner c)).1 =
          (handleFindNewPartner s c).1 from rfl,
        (handleFindNewPartner_fields s c).1, h1] at h2
    simp at h2
  | disconnect c =>
    have hcA : A ≠ c := fun hc => h3 (by rw [hc])
    unfold inTextQ at h1 h2
    rw [show (step s (Event.disconnect c)).1 =
          (handleDisconnect s c).1 from rfl,
        (handleDisconnect_fields s c).1,
        any_removeFirstBy_ne s.textChatQueue c A hcA, h1] at h2
    simp at h2

/-- Claim C5: the text matchmaker is strict FIFO.  (1) A `joinTextChat`
against a non-empty queue removes exactly the head entry and matches the
joiner with it; (2) against an empty queue it appends the new waiting
entry at the tail; (3) consequently, if `A` is enqueued at step `i` and
`B` is enqueued later at step `j`, and `A` does not disconnect in
between, then `A` was matched (received `chatMatched`) strictly before
`j` — in particular before `B`, whose own match can only happen after
`j`. -/
theorem joinTextChat_fifo :
    (∀ (s : ServerState) (c u : String) (p : WaitingEntry)
       (rest : List WaitingEntry),
       s.textChatQueue = p :: rest →
       (step s (Event.joinTextChat c u)).1.textChatQueue = rest ∧
       (step s (Event.joinTextChat c u)).2 =
         [(c, OutEvent.chatMatched p.username
             ("text_" ++ s.idStream.headD "")),
          (p.sid, OutEvent.chatMatched u
             ("text_" ++ s.idStream.headD ""))]) ∧
    (∀ (s : ServerState) (c u : String),
       s.textChatQueue = [] →
       (step s (Event.joinTextChat c u)).1.textChatQueue = [⟨c, u⟩] ∧
       (step s (Event.joinTextChat c u)).2 = []) ∧
    (∀ (ids : List String) (es : List Event) (i j : Nat) (A B uA uB : String),
       i < j →
       es[i]? = some (Event.joinTextChat A uA) →
       (stAt ids es i).textChatQueue = [] →
       es[j]? = some (Event.joinTextChat B uB) →
       (stAt ids es j).textChatQueue = [] →
       (∀ k, i < k → k < j → es[k]? ≠ some (Event.disconnect A)) →
       ∃ k, i < k ∧ k < j ∧ gotMatched (emitsAt ids es k) A = true) := by
  refine ⟨?_, ?_, ?_⟩
  · intro s c u p rest h
    exact ⟨(handleJoinText_match_fields s c u p rest h).1,
      handleJoinText_match_emits s c u p rest h⟩
  · intro s c u h
    constructor
    · have hft := (handleJoinText_empty_fields s c u h).1
      rw [h] at hft
      simpa using hft
    · exact handleJoinText_empty_emits s c u h
  · intro ids es i j A B uA uB hij hgi hqi hgj hqj hnd
    have hA1 : inTextQ (stAt ids es (i + 1)) A = true := by
      rw [stAt_succ ids es i _ hgi]
      show inTextQ (handleJoinText (stAt ids es i) A uA).1 A = true
      unfold inTextQ
      rw [(handleJoinText_empty_fields (stAt ids es i) A uA hqi).1, hqi]
      simp
    have hAj : inTextQ (stAt ids es j) A = false := by
      unfold inTextQ
      rw [hqj]
      rfl
    obtain ⟨k, hk1, hk2, hk3, hk4⟩ :=
      exists_flip (fun n => inTextQ (stAt ids es n) A) (j - (i + 1)) (i + 1) j
        rfl (by omega) hA1 hAj
    have hjlen : j < es.length := (List.getElem?_eq_some.mp hgj).1
    have hklen : k < es.length := by omega
    obtain ⟨ek, hek⟩ : ∃ ek, es[k]? = some ek :=
      ⟨es[k], List.getElem?_eq_getElem hklen⟩
    have hkemit : gotMatched (step (stAt ids es k) ek).2 A = true := by
      refine step_dequeued_matched (stAt ids es k) ek A hk3 ?_ ?_
      · rw [← stAt_succ ids es k ek hek]
        exact hk4
      · intro hcontra
        exact hnd k (by omega) hk2 (by rw [hek, hcontra])
    refine ⟨k, by omega, hk2, ?_⟩
    unfold emitsAt
    rw [hek]
    exact hkemit

theorem joinTextChat_fifo_witness :
    ∃ k, 0 < k ∧ k < 2 ∧ gotMatched (emitsAt [] fifoTrace k) "A" = true :=
  joinTextChat_fifo.2.2 [] fifoTrace 0 2 "A" "B" "a" "b" (by omega) rfl rfl
    rfl rfl
    (fun k h1 h2 => by
      have hk : k = 1 := by omega
      rw [hk]
      decide)
